import Mathlib

/-!
Verification of the Brainweave-OS core against its specification.

Python strings are modelled as `List Char` (`Str`); Python `None`/values as
`Option`; raised exceptions as `Except` results or explicit outcome values.
Effectful code (file system, sleeps, LLM calls, the copy attempt itself) is
modelled by explicit state passing and oracle parameters that choose the
outcome of each external operation; the control flow around those outcomes
is translated directly from the source.  Each definition cites the function
in `src/` it embeds.
-/

set_option maxRecDepth 10000

abbrev Str := List Char

/-- Python `str.split(". ")` specialised to the two-character separator,
keeping empty fields, as used by `LLMService._chunk_transcript`
(src/services/llm_service.py line 52). -/
def splitDotSp : Str → List Str
  | [] => [[]]
  | '.' :: ' ' :: rest => [] :: splitDotSp rest
  | c :: rest =>
    match splitDotSp rest with
    | [] => [[c]]
    | g :: gs => (c :: g) :: gs

/-- Python `str.split("/")`, keeping empty fields, as used by the video-id
fallback in `MarkdownService.save_metadata` (src/services/markdown_service.py
line 106). -/
def splitSlash : Str → List Str
  | [] => [[]]
  | '/' :: rest => [] :: splitSlash rest
  | c :: rest =>
    match splitSlash rest with
    | [] => [[c]]
    | g :: gs => (c :: g) :: gs

/-- Python `sep.join(parts)`. -/
def pyjoin (sep : Str) : List Str → Str
  | [] => []
  | [x] => x
  | x :: y :: rest => x ++ sep ++ pyjoin sep (y :: rest)

/-- ASCII whitespace as stripped by Python `str.strip()` and matched by the
regex class `\s`. -/
def pyws (c : Char) : Bool :=
  c = ' ' || c = '\t' || c = '\n' || c = '\r' || c = '\x0b' || c = '\x0c'

/-- Python `str.strip()`: remove leading and trailing whitespace. -/
def pytrim (l : Str) : Str :=
  ((l.dropWhile pyws).reverse.dropWhile pyws).reverse

/-- Python `str.lower()` (ASCII-faithful). -/
def pylower (l : Str) : Str := l.map Char.toLower

/-- The sentence separator `". "`. -/
def sep2 : Str := ['.', ' ']

/-- The loop body of `LLMService._chunk_transcript`
(src/services/llm_service.py lines 48-63): greedily pack the `". "`-split
sentences into chunks; the running `current_chunk` always carries a trailing
`". "` appended after each sentence, and a finished chunk is `strip()`ped.
A chunk is emitted only when `current_chunk` is non-empty (Python truthiness
of the string). -/
def chunkAux (maxc : ℕ) : List Str → Str → List Str
  | [], current => if current = [] then [] else [pytrim current]
  | s :: rest, current =>
    if current.length + s.length + 2 ≤ maxc then
      chunkAux maxc rest (current ++ s ++ sep2)
    else if current = [] then
      chunkAux maxc rest (s ++ sep2)
    else
      pytrim current :: chunkAux maxc rest (s ++ sep2)

/-- Embeds `LLMService._chunk_transcript` (src/services/llm_service.py lines 40-65):
texts no longer than `max_chunk_size` become a single chunk, longer texts are
split on `". "` and packed greedily.  The Python default for
`max_chunk_size` is 100000, the value `extract_metadata` passes. -/
def chunk_transcript (transcript : Str) (max_chunk_size : ℕ) : List Str :=
  if transcript.length ≤ max_chunk_size then [transcript]
  else chunkAux max_chunk_size (splitDotSp transcript) []

/-- The raw (unstripped) text accumulated for a block of sentences:
each sentence of the block is followed by `". "`. -/
def renderRaw (b : List Str) : Str := pyjoin sep2 b ++ sep2

/-- A block satisfying `blockOk maxc` either fits the chunk budget or is a
single oversized sentence. -/
def blockOk (maxc : ℕ) (b : List Str) : Prop :=
  (renderRaw b).length ≤ maxc ∨ ∃ s, b = [s] ∧ maxc < s.length + 2

/-! ## Exceptions (src/utils/atomic_write.py) -/

/-- The exception classes distinguished by the persistence code.
`permissionError`/`osError` carry the optional `winerror` attribute read by
`_is_windows_lock_error`; `otherError` stands for any exception that is not
an `OSError` (it has no `winerror` attribute, hence `getattr` yields
`None`). -/
inductive PyErr where
  | permissionError (winerror : Option ℤ)
  | osError (winerror : Option ℤ)
  | valueError
  | typeError
  | ioError
  | otherError
deriving DecidableEq, Repr

/-- Models `getattr(e, "winerror", None)` (src/utils/atomic_write.py line 16). -/
def winerrorOf : PyErr → Option ℤ
  | .permissionError w => w
  | .osError w => w
  | _ => none

/-- Embeds the constant `LOCK_ERRNOS` (src/utils/atomic_write.py line 11). -/
def LOCK_ERRNOS : List ℤ := [32, 5]

/-- Embeds `_is_windows_lock_error` (src/utils/atomic_write.py lines 14-17). -/
def is_windows_lock_error (e : PyErr) : Bool :=
  match winerrorOf e with
  | some w => decide (w ∈ LOCK_ERRNOS)
  | none => false

/-- Whether an exception is (a subclass of) `PermissionError`, as matched by
`except PermissionError`. -/
def isPermErr : PyErr → Bool
  | .permissionError _ => true
  | _ => false

/-! ## Atomic writer (src/utils/atomic_write.py, `atomic_write_text`)

The file system is a partial map from paths to file contents.  The
temporary path carries a fresh unique suffix appended to the target name
(`path.with_suffix(path.suffix + ".tmp." + uuid4().hex)`), so it is a
strictly longer path than the target; `tmpPath` models this. -/

abbrev FS := Str → Option Str

def fsWrite (fs : FS) (p : Str) (c : Str) : FS :=
  fun q => if q = p then some c else fs q

def fsRemove (fs : FS) (p : Str) : FS :=
  fun q => if q = p then none else fs q

/-- Models `os.replace(src, dst)`: atomically move the file at `src` onto `dst`. -/
def osReplaceFs (fs : FS) (src dst : Str) : FS :=
  fun q => if q = dst then fs src else if q = src then none else fs q

/-- The unique temporary name beside the target. -/
def tmpPath (path : Str) : Str := path ++ ".tmp".data

/-- Failure points of `atomic_write_text`: directory creation and the
temp-file open happen before any data is on disk; a failure during
`f.write` leaves partial data in the temp file; `flush`/`fsync` failures
leave the full content in the temp file; `os.replace` can fail after a
fully written temp file. -/
inductive FailPoint where
  | mkdirStep
  | openStep
  | writeStep
  | flushStep
  | fsyncStep
  | replaceStep
deriving DecidableEq, Repr

/-- A failure injection for `atomic_write_text`: where it fails, the raised
exception, the partial temp-file content present when `f.write` itself
fails, and whether the best-effort `tmp.unlink()` in the cleanup handler
fails (its exception is swallowed by the source). -/
structure WriteFail where
  point : FailPoint
  err : PyErr
  partialContent : Str
  unlinkFails : Bool

/-- The `except` handler of `atomic_write_text`
(src/utils/atomic_write.py lines 39-46): if the temp file exists, unlink it,
swallowing any unlink error. -/
def cleanupTmp (fs : FS) (path : Str) (unlinkFails : Bool) : FS :=
  match fs (tmpPath path) with
  | none => fs
  | some _ => if unlinkFails then fs else fsRemove fs (tmpPath path)

/-- Embeds `atomic_write_text` (src/utils/atomic_write.py lines 20-46).
`inj = none` is the failure-free run: the content is written to the temp
file and `os.replace` moves it onto the target.  With an injected failure,
the state reached at the failure point is cleaned up by the handler — except
for a `mkdir` failure, which is raised before the `try` block.  The original
exception always propagates. -/
def atomic_write_text (fs : FS) (path : Str) (content : Str)
    (inj : Option WriteFail) : FS × Except PyErr Unit :=
  match inj with
  | none =>
    (osReplaceFs (fsWrite fs (tmpPath path) content) (tmpPath path) path, .ok ())
  | some f =>
    match f.point with
    | .mkdirStep => (fs, .error f.err)
    | .openStep => (cleanupTmp fs path f.unlinkFails, .error f.err)
    | .writeStep =>
      (cleanupTmp (fsWrite fs (tmpPath path) f.partialContent) path f.unlinkFails,
       .error f.err)
    | .flushStep =>
      (cleanupTmp (fsWrite fs (tmpPath path) content) path f.unlinkFails,
       .error f.err)
    | .fsyncStep =>
      (cleanupTmp (fsWrite fs (tmpPath path) content) path f.unlinkFails,
       .error f.err)
    | .replaceStep =>
      (cleanupTmp (fsWrite fs (tmpPath path) content) path f.unlinkFails,
       .error f.err)

/-! ## Resilient copier (src/utils/atomic_write.py, `copy_with_retries`)

The copy attempt (temp copy + `os.replace`) is abstracted as an oracle
`attempt : ℕ → Option PyErr` giving the exception raised on iteration `i`
(`none` = the attempt succeeds).  The result records the sleep durations in
order (real-number model of `time.sleep(base_delay * (2 ** i) + (0.02 * i))`)
and the outcome. -/

/-- The result of a `copy_with_retries` call: success, an immediately
propagated exception, or the terminal
`PermissionError("Destination file stayed locked ...") from last_err`
raised after the loop (src/utils/atomic_write.py lines 91-93). -/
inductive CopyOutcome where
  | success
  | failed (e : PyErr)
  | exhausted (last : Option PyErr)
deriving DecidableEq, Repr

/-- The backoff `base_delay * (2 ** i) + (0.02 * i)` slept before retrying
attempt `i + 1` (src/utils/atomic_write.py lines 74 and 80). -/
def sleepFor (base_delay : ℚ) (i : ℕ) : ℚ :=
  base_delay * 2 ^ i + (1 / 50 : ℚ) * i

/-- The retry loop of `copy_with_retries` (src/utils/atomic_write.py lines
63-89), with `fuel` iterations remaining and `i` the current attempt index.
A caught error (`except PermissionError` / `except OSError`) that is a
Windows lock error triggers a sleep and the next attempt; any other caught
error is re-raised, and an uncaught error propagates — both are `failed`. -/
def copyLoop (attempt : ℕ → Option PyErr) (base_delay : ℚ) :
    ℕ → ℕ → Option PyErr → List ℚ × CopyOutcome
  | 0, _, lastErr => ([], .exhausted lastErr)
  | fuel + 1, i, _lastErr =>
    match attempt i with
    | none => ([], .success)
    | some e =>
      if is_windows_lock_error e then
        let r := copyLoop attempt base_delay fuel (i + 1) (some e)
        (sleepFor base_delay i :: r.1, r.2)
      else ([], .failed e)

/-- Embeds `copy_with_retries` (src/utils/atomic_write.py lines 49-93).  The Python
defaults are `attempts = 8`, `base_delay = 0.15`. -/
def copy_with_retries (attempt : ℕ → Option PyErr) (attempts : ℕ)
    (base_delay : ℚ) : List ℚ × CopyOutcome :=
  copyLoop attempt base_delay attempts 0 none

/-! ## Filename builder (src/utils/filesystem.py) -/

/-- Embeds the constant `WINDOWS_INVALID_CHARS` (src/utils/filesystem.py line 17). -/
def WINDOWS_INVALID_CHARS : Str := "<>:\"/\\|?*".data

/-- Embeds the set `WINDOWS_RESERVED_NAMES` (src/utils/filesystem.py lines 11-15). -/
def windowsReservedNames : List Str :=
  ["CON".data, "PRN".data, "AUX".data, "NUL".data,
   "COM1".data, "COM2".data, "COM3".data, "COM4".data, "COM5".data,
   "COM6".data, "COM7".data, "COM8".data, "COM9".data,
   "LPT1".data, "LPT2".data, "LPT3".data, "LPT4".data, "LPT5".data,
   "LPT6".data, "LPT7".data, "LPT8".data, "LPT9".data]

/-- A character matched by the class `[<>:"/\|?*\s]` of the first
`re.sub` (src/utils/filesystem.py line 29). -/
def isInvalidOrSpace (c : Char) : Bool :=
  WINDOWS_INVALID_CHARS.contains c || pyws c

/-- Collapse runs of `'-'` to a single `'-'`
(`re.sub(r'-+', '-', slug)`, src/utils/filesystem.py line 31).
Replacing every matched character by `'-'` pointwise and then collapsing
hyphen runs yields the same string as the source's two `re.sub` passes,
because the second pass erases the only difference (run multiplicity). -/
def collapseHyphens : Str → Str
  | [] => []
  | [c] => [c]
  | c :: d :: rest =>
    if c = '-' ∧ d = '-' then collapseHyphens (d :: rest)
    else c :: collapseHyphens (d :: rest)

/-- Python `str.rstrip('-')`. -/
def rstripHyphens (l : Str) : Str :=
  (l.reverse.dropWhile (· = '-')).reverse

/-- Python `str.strip('-')` (src/utils/filesystem.py line 33). -/
def stripHyphens (l : Str) : Str :=
  rstripHyphens (l.dropWhile (· = '-'))

/-- Python `l[:n]` for a possibly negative `n` (a negative slug budget drops
characters from the end). -/
def pySliceTo (l : Str) (n : ℤ) : Str :=
  if 0 ≤ n then l.take n.toNat else l.take ((l.length : ℤ) + n).toNat

/-- The slug pipeline of `create_windows_safe_filename`
(src/utils/filesystem.py lines 26-39): lower-case, replace invalid/space
characters with hyphens, collapse hyphen runs, strip edge hyphens, then
truncate to the budget `max_length - date_prefix_len - video_id_len` where
the source sets `date_prefix_len = 11` and `video_id_len = len(video_id) + 4`
(its comments name the strings `"YYYY-MM-DD__"` and `"__VIDEO_ID.md"`, of
lengths 12 and `len(video_id) + 5`). -/
def makeSlug (title : Str) (video_id : Str) (max_length : ℕ) : Str :=
  let slug := pylower title
  let slug := collapseHyphens (slug.map (fun c => if isInvalidOrSpace c then '-' else c))
  let slug := stripHyphens slug
  let date_prefix_len : ℤ := 11
  let video_id_len : ℤ := (video_id.length : ℤ) + 4
  let max_slug_len : ℤ := (max_length : ℤ) - date_prefix_len - video_id_len
  if max_slug_len < (slug.length : ℤ) then rstripHyphens (pySliceTo slug max_slug_len)
  else slug

/-- Python `filename.rsplit('.', 1)[0]`: everything before the last `'.'`,
or the whole string when it has no `'.'`. -/
def beforeLastDot (l : Str) : Str :=
  if '.' ∈ l then ((l.reverse.dropWhile (· ≠ '.')).drop 1).reverse else l

/-- Embeds `create_windows_safe_filename` (src/utils/filesystem.py lines 20-52).
`today` stands for `datetime.now().strftime("%Y-%m-%d")`, a ten-character
date string, passed explicitly so the function is a pure function of its
inputs.  The Python default for `max_length` is 200. -/
def create_windows_safe_filename (today : Str) (title : Str) (video_id : Str)
    (max_length : ℕ) : Str :=
  let slug := makeSlug title video_id max_length
  let filename := today ++ "__".data ++ slug ++ "__".data ++ video_id ++ ".md".data
  let name_without_ext := beforeLastDot filename
  if name_without_ext.map Char.toUpper ∈ windowsReservedNames then
    "video".data ++ "__".data ++ slug ++ "__".data ++ video_id ++ ".md".data
  else filename

/-! ## Schemas (src/models/schemas.py) -/

/-- Embeds `Chapter` (src/models/schemas.py lines 8-12). -/
structure Chapter where
  title : Str
  timestamp : Option Str
  summary : Str
deriving DecidableEq, Repr

/-- Embeds `MetadataSchema` (src/models/schemas.py lines 15-28). -/
structure MetadataSchema where
  title : Str
  source_url : Str
  source_type : Str
  date_published : Option Str
  host : Option Str
  guests : List Str
  topics : List Str
  tags : List Str
  summary : Str
  key_points : List Str
  transcript : Str
  chapters : List Chapter
deriving DecidableEq, Repr

/-- Embeds `FileSaveInfo` (src/models/schemas.py lines 62-69). -/
structure FileSaveInfo where
  path : Option Str
  filename : Str
  skipped : Bool
  staged_path : Option Str
  saved : Bool
  error_code : Option Str
deriving DecidableEq, Repr

/-! ## Extraction orchestrator (src/services/llm_service.py)

The LLM round trip (provider call, JSON parse, pydantic validation) is an
oracle `llm : Str → MetadataSchema` from the prompted chunk text to the
validated schema object; the claims under verification hold for every
oracle. -/

/-- The per-chunk dict of summary, key points and topics built at
src/services/llm_service.py lines 137-141. -/
structure ChunkSummary where
  summary : Str
  key_points : List Str
  topics : List Str
deriving DecidableEq, Repr

/-- The seen-set dedup loops of `extract_metadata`
(src/services/llm_service.py lines 145-159): iterate over the points of all
chunks in order, keeping a point only if its lower-cased form has not been
seen; `seen` holds the lower-cased forms.  Iterating the nested Python loops
equals iterating the flattened list. -/
def dedupLoop (seen : List Str) : List Str → List Str
  | [] => []
  | p :: rest =>
    if pylower p ∈ seen then dedupLoop seen rest
    else p :: dedupLoop (pylower p :: seen) rest

/-- Embeds `merged_summary = "\n\n".join(...)` (src/services/llm_service.py
line 144). -/
def merged_summary_of (css : List ChunkSummary) : Str :=
  pyjoin "\n\n".data (css.map (·.summary))

/-- Embeds `merged_key_points` before the cap (src/services/llm_service.py lines
145-151). -/
def merged_key_points_of (css : List ChunkSummary) : List Str :=
  dedupLoop [] (css.map (·.key_points)).flatten

/-- Embeds `merged_topics` (src/services/llm_service.py lines 153-159). -/
def merged_topics_of (css : List ChunkSummary) : List Str :=
  dedupLoop [] (css.map (·.topics)).flatten

/-- Python `l[-n:]` for `n > 0`. -/
def pyLastSlice (n : ℕ) (l : Str) : Str := l.drop (l.length - n)

/-- Embeds `LLMService._extract_metadata_single_chunk`
(src/services/llm_service.py lines 182-238): call the LLM and validate; when
`is_chunk` is false the `transcript` field of the result is overwritten with
the input text (lines 231-236). -/
def extract_metadata_single_chunk (llm : Str → MetadataSchema)
    (transcript : Str) (is_chunk : Bool) : MetadataSchema :=
  let m := llm transcript
  if is_chunk then m else { m with transcript := transcript }

/-- Embeds `LLMService.extract_metadata` (src/services/llm_service.py lines
114-180): chunk at 100000; on the multi-chunk path, extract each chunk,
merge summaries/key points/topics, run a representative pass on
`chunks[0][:50000] + "..." + chunks[-1][-50000:]`, then overwrite the merged
fields and the full transcript onto its result (lines 172-176). -/
def extract_metadata (llm : Str → MetadataSchema) (transcript : Str) :
    MetadataSchema :=
  let chunks := chunk_transcript transcript 100000
  if 1 < chunks.length then
    let chunk_summaries := chunks.map (fun c =>
      let cm := extract_metadata_single_chunk llm c true
      ChunkSummary.mk cm.summary cm.key_points cm.topics)
    let representative :=
      (chunks.headD []).take 50000 ++ "...".data ++ pyLastSlice 50000 (chunks.getLastD [])
    let full := extract_metadata_single_chunk llm representative false
    { full with
        summary := merged_summary_of chunk_summaries
        key_points := (merged_key_points_of chunk_summaries).take 12
        topics := merged_topics_of chunk_summaries
        transcript := transcript }
  else
    extract_metadata_single_chunk llm transcript false

/-- Specification-side first-seen dedup: keep each element whose lower-cased
form has not occurred earlier in the list.  Stated independently of the
seen-set loop; the refinement theorem relates the two. -/
def firstOccur : List Str → List Str
  | [] => []
  | x :: xs => x :: firstOccur (xs.filter (fun y => decide (pylower y ≠ pylower x)))
termination_by l => l.length
decreasing_by
  simp only [List.length_cons]
  exact Nat.lt_succ_of_le (List.length_filter_le _ _)

/-! ## Persistence orchestrator (src/services/markdown_service.py)

External conditions of a `save_metadata` call are an environment record:
the two `vault_path.exists()` probes, the staged-file existence probe, the
outcome of the staging `atomic_write_text`, and the outcome of
`copy_with_retries`. -/

/-- The fallback `metadata.source_url.split("/")[-1][:11]`
(src/services/markdown_service.py line 106). -/
def extract_video_id_fallback (url : Str) : Str :=
  ((splitSlash url).getLastD []).take 11

/-- Python `needle in haystack` on strings: substring containment. -/
def pyIn (needle : Str) : Str → Bool
  | [] => needle.isEmpty
  | c :: rest => needle.isPrefixOf (c :: rest) || pyIn needle rest

/-- The fields of a `urllib.parse.urlparse` result read by
`extract_video_id` (src/utils/youtube.py lines 30-42): `hostname` is `None`
for URLs without a network location. -/
structure ParsedUrl where
  hostname : Option Str
  path : Str
  query : Str

/-- Embeds `extract_video_id` (src/utils/youtube.py lines 7-48).  URL
parsing itself is abstracted: `search` is the regex search for the watch
pattern (a matched 11-character id or none), `parse` is `urlparse`,
`normalize` is `normalize_youtube_url`, `pathBranches` is the
`/shorts/`-and-path-segment extraction inside the hostname gate (lines
32-39) and `queryBranch` the `v` query-parameter extraction (lines 42-46).
The control flow around them is translated directly.  The hostname gate,
`parsed.hostname and 'youtube.com' in parsed.hostname or 'youtu.be' in
parsed.hostname`, raises `TypeError` when `hostname` is `None`, because the
right operand of the `or` evaluates `'youtu.be' in None`; a non-`None`
hostname evaluates both substring tests (an empty hostname makes both
false, matching `pyIn` on the empty string).  On no match anywhere it
raises `ValueError` (line 48). -/
def extract_video_id (search : Str → Option Str) (parse : Str → ParsedUrl)
    (normalize : Str → Str) (pathBranches : ParsedUrl → Option Str)
    (queryBranch : ParsedUrl → Option Str) (url : Str) : Except PyErr Str :=
  let nurl := normalize url
  match search nurl with
  | some vid => .ok vid
  | none =>
    let parsed := parse nurl
    let gateRes : Except PyErr (Option Str) :=
      match parsed.hostname with
      | none => .error PyErr.typeError
      | some h =>
        if pyIn "youtube.com".data h || pyIn "youtu.be".data h then
          .ok (pathBranches parsed)
        else .ok none
    match gateRes with
    | .error e => .error e
    | .ok (some vid) => .ok vid
    | .ok none =>
      match queryBranch parsed with
      | some vid => .ok vid
      | none => .error PyErr.valueError

/-- The `try/except ValueError` around `extract_video_id`
(src/services/markdown_service.py lines 102-106); the extractor is an
oracle returning the extracted id or the exception it raises.  Only a
`ValueError` is caught and replaced by the fallback; any other exception —
such as the `TypeError` `extract_video_id` raises for hostname-less URLs —
propagates out of `save_metadata`. -/
def save_video_id (extractor : Str → Except PyErr Str) (url : Str) :
    Except PyErr Str :=
  match extractor url with
  | .ok v => .ok v
  | .error PyErr.valueError => .ok (extract_video_id_fallback url)
  | .error e => .error e

/-- The exception a finished `copy_with_retries` call raises, if any:
`failed e` re-raises `e`; exhaustion raises the fresh
`PermissionError("Destination file stayed locked ...")`, which carries no
`winerror`. -/
def copyRaisedErr : CopyOutcome → Option PyErr
  | .success => none
  | .failed e => some e
  | .exhausted _ => some (.permissionError none)

/-- Environment of one `save_metadata` call. -/
structure SaveEnv where
  today : Str
  staging_dir : Str
  vault_dir : Str
  vault_exists_pre : Bool
  staging_exists : Bool
  staging_write_err : Option PyErr
  vault_exists_at_copy : Bool
  copy_outcome : CopyOutcome

/-- Embeds `MarkdownService.save_metadata` (src/services/markdown_service.py lines
88-167): derive the video id (the fallback covering a `ValueError`, any
other extraction exception propagating uncaught), build the filename,
return a skip result if the vault file exists and `overwrite` is false,
write to staging (a failure raises `IOError`), then attempt the vault copy,
mapping a raised `PermissionError` to `"FILE_LOCKED"` and any other
exception to `"COPY_ERROR"`, and return the `FileSaveInfo`. -/
def save_metadata (env : SaveEnv) (extractor : Str → Except PyErr Str)
    (m : MetadataSchema) (overwrite : Bool) : Except PyErr FileSaveInfo :=
  match save_video_id extractor m.source_url with
  | .error e => .error e
  | .ok video_id =>
  let filename := create_windows_safe_filename env.today m.title video_id 200
  let staging_path := env.staging_dir ++ "/".data ++ filename
  let vault_path := env.vault_dir ++ "/".data ++ filename
  if env.vault_exists_pre && !overwrite then
    .ok ⟨some vault_path, filename, true,
         if env.staging_exists then some staging_path else none, true, none⟩
  else
    match env.staging_write_err with
    | some _ => .error .ioError
    | none =>
      let res : Bool × Option Str :=
        if env.vault_exists_at_copy && !overwrite then (true, none)
        else
          match copyRaisedErr env.copy_outcome with
          | none => (true, none)
          | some e =>
            (false, some (if isPermErr e then "FILE_LOCKED".data else "COPY_ERROR".data))
      .ok ⟨if res.1 then some vault_path else none, filename, false,
           some staging_path, res.1, res.2⟩

/-- A minimal concrete metadata value, used to evaluate `save_metadata` at
specific inputs. -/
def metaC : MetadataSchema :=
  ⟨"t".data, "https://example.com/watch_page_number_one".data, "youtube".data,
   none, none, [], [], [], "s".data, [], "tr".data, []⟩

/-! ## Helper lemmas -/

lemma splitDotSp_ne_nil (l : Str) : splitDotSp l ≠ [] := by
  induction l using splitDotSp.induct <;> simp_all [splitDotSp]

lemma pyjoin_splitDotSp (l : Str) : pyjoin sep2 (splitDotSp l) = l := by
  induction l using splitDotSp.induct with
  | case1 => simp [splitDotSp, pyjoin]
  | case2 rest ih =>
    have h := splitDotSp_ne_nil rest
    rcases hg : splitDotSp rest with _ | ⟨g, gs⟩
    · exact absurd hg h
    · rw [hg] at ih
      simp only [splitDotSp, hg, pyjoin]
      cases gs <;> simp_all [pyjoin, sep2]
  | case3 c rest hne hemp ih => exact absurd hemp (splitDotSp_ne_nil rest)
  | case4 c rest hne g gs hg ih =>
    rw [hg] at ih
    simp only [splitDotSp, hg]
    cases gs <;> simp_all [pyjoin, sep2]

lemma pytrim_length_le (l : Str) : (pytrim l).length ≤ l.length := by
  calc (pytrim l).length
      = ((l.dropWhile pyws).reverse.dropWhile pyws).length := by
        simp [pytrim]
    _ ≤ (l.dropWhile pyws).reverse.length := (List.dropWhile_sublist _).length_le
    _ ≤ l.length := by
        simpa using (List.dropWhile_sublist (l := l) pyws).length_le

lemma pyjoin_snoc (sep : Str) (b : List Str) (s : Str) (hb : b ≠ []) :
    pyjoin sep (b ++ [s]) = pyjoin sep b ++ sep ++ s := by
  induction b with
  | nil => exact absurd rfl hb
  | cons x xs ih =>
    cases xs with
    | nil => simp [pyjoin]
    | cons y ys =>
      have h2 := ih (by simp)
      simp only [List.cons_append, pyjoin, List.append_eq] at h2 ⊢
      rw [h2]
      simp [List.append_assoc]

lemma renderRaw_single (s : Str) : renderRaw [s] = s ++ sep2 := rfl

lemma renderRaw_snoc (b : List Str) (s : Str) (hb : b ≠ []) :
    renderRaw (b ++ [s]) = renderRaw b ++ s ++ sep2 := by
  simp [renderRaw, pyjoin_snoc sep2 b s hb, List.append_assoc]

lemma renderRaw_ne_nil (b : List Str) : renderRaw b ≠ [] := by
  simp [renderRaw, sep2]

lemma renderRaw_snoc_length (b : List Str) (s : Str) (hb : b ≠ []) :
    (renderRaw (b ++ [s])).length = (renderRaw b).length + s.length + 2 := by
  rw [renderRaw_snoc b s hb]
  simp [sep2]
  omega

lemma blockOk_single (maxc : ℕ) (s : Str) : blockOk maxc [s] := by
  by_cases h : (renderRaw [s]).length ≤ maxc
  · exact Or.inl h
  · refine Or.inr ⟨s, rfl, ?_⟩
    rw [renderRaw_single] at h
    simp [sep2] at h
    omega

lemma chunkAux_blocks (maxc : ℕ) :
    ∀ (ss : List Str) (b : List Str), b ≠ [] → blockOk maxc b →
    ∃ blocks : List (List Str),
      (∀ x ∈ blocks, x ≠ [] ∧ blockOk maxc x) ∧
      blocks.flatten = b ++ ss ∧
      chunkAux maxc ss (renderRaw b) = blocks.map (fun bl => pytrim (renderRaw bl)) := by
  intro ss
  induction ss with
  | nil =>
    intro b hb hok
    refine ⟨[b], by simp [hb, hok], by simp, ?_⟩
    simp [chunkAux, renderRaw_ne_nil b]
  | cons s rest ih =>
    intro b hb hok
    by_cases hc : (renderRaw b).length + s.length + 2 ≤ maxc
    · have hlen : (renderRaw (b ++ [s])).length ≤ maxc := by
        rw [renderRaw_snoc_length b s hb]; omega
      obtain ⟨blocks, hprop, hflat, heq⟩ := ih (b ++ [s]) (by simp) (Or.inl hlen)
      refine ⟨blocks, hprop, by simp [hflat], ?_⟩
      rw [← heq]
      simp only [chunkAux, if_pos hc]
      congr 1
      rw [renderRaw_snoc b s hb]
    · obtain ⟨blocks, hprop, hflat, heq⟩ := ih [s] (by simp) (blockOk_single maxc s)
      refine ⟨b :: blocks, ?_, by simp [hflat], ?_⟩
      · intro x hx
        rcases List.mem_cons.mp hx with rfl | hx
        · exact ⟨hb, hok⟩
        · exact hprop x hx
      · simp only [chunkAux, if_neg hc, if_neg (renderRaw_ne_nil b), List.map_cons]
        rw [← heq, renderRaw_single]

lemma chunk_transcript_blocks (text : Str) (maxc : ℕ) (h : maxc < text.length) :
    ∃ blocks : List (List Str),
      (∀ x ∈ blocks, x ≠ [] ∧ blockOk maxc x) ∧
      blocks.flatten = splitDotSp text ∧
      chunk_transcript text maxc = blocks.map (fun bl => pytrim (renderRaw bl)) := by
  rcases hsp : splitDotSp text with _ | ⟨s, ss⟩
  · exact absurd hsp (splitDotSp_ne_nil text)
  · have hstart : chunk_transcript text maxc = chunkAux maxc ss (renderRaw [s]) := by
      rw [chunk_transcript, if_neg (by omega), hsp, renderRaw_single]
      by_cases hc : List.length ([] : Str) + s.length + 2 ≤ maxc <;>
        simp [chunkAux, hc]
    obtain ⟨blocks, hprop, hflat, heq⟩ :=
      chunkAux_blocks maxc ss [s] (by simp) (blockOk_single maxc s)
    exact ⟨blocks, hprop, by simp [hflat, hsp], by rw [hstart, heq]⟩

/-! ## Claims -/

/-- C5 (amended): a text of length at most `max_chunk_size` is returned as
the single chunk `[text]`; a longer text is split only at the `". "`
sentence delimiter — the chunks are exactly the sentences of the text,
partitioned in order into non-empty contiguous blocks (each chunk being its
block re-joined with `". "`, terminated by `". "`, and stripped) — and
every chunk either has length at most `max_chunk_size` or is the chunk of a
single sentence `s` with `len(s) + 2 > max_chunk_size` (the sentence plus
its re-appended `". "` delimiter exceeding the budget), which becomes its
own oversized chunk `strip(s + ". ")` of length up to `len(s) + 1`. -/
theorem chunking_spec (text : Str) (maxc : ℕ) :
    (text.length ≤ maxc → chunk_transcript text maxc = [text]) ∧
    (maxc < text.length →
      ∃ blocks : List (List Str),
        (∀ x ∈ blocks, x ≠ []) ∧
        blocks.flatten = splitDotSp text ∧
        chunk_transcript text maxc = blocks.map (fun bl => pytrim (renderRaw bl)) ∧
        (∀ c ∈ chunk_transcript text maxc,
          c.length ≤ maxc ∨
          ∃ s ∈ splitDotSp text, maxc < s.length + 2 ∧ c = pytrim (s ++ sep2))) := by
  constructor
  · intro h
    simp [chunk_transcript, h]
  · intro h
    obtain ⟨blocks, hprop, hflat, heq⟩ := chunk_transcript_blocks text maxc h
    refine ⟨blocks, fun x hx => (hprop x hx).1, hflat, heq, ?_⟩
    intro c hc
    rw [heq] at hc
    obtain ⟨bl, hbl, rfl⟩ := List.mem_map.mp hc
    rcases (hprop bl hbl).2 with hlen | ⟨s, rfl, hs⟩
    · exact Or.inl (le_trans (pytrim_length_le _) hlen)
    · refine Or.inr ⟨s, ?_, hs, by rw [renderRaw_single]⟩
      rw [← hflat]
      exact List.mem_flatten.mpr ⟨[s], hbl, by simp⟩

/-- Witness for `chunking_spec` at `maxc = 5`: the short text `"ab"` is a
single chunk, and the long text `"aaaaa. bb"` satisfies the block
decomposition. -/
theorem chunking_spec_witness :
    chunk_transcript "ab".data 5 = ["ab".data] ∧
    (∃ blocks : List (List Str),
        (∀ x ∈ blocks, x ≠ []) ∧
        blocks.flatten = splitDotSp "aaaaa. bb".data ∧
        chunk_transcript "aaaaa. bb".data 5 =
          blocks.map (fun bl => pytrim (renderRaw bl)) ∧
        (∀ c ∈ chunk_transcript "aaaaa. bb".data 5,
          c.length ≤ 5 ∨
          ∃ s ∈ splitDotSp "aaaaa. bb".data, 5 < s.length + 2 ∧
            c = pytrim (s ++ sep2))) :=
  ⟨(chunking_spec "ab".data 5).1 (by decide),
   (chunking_spec "aaaaa. bb".data 5).2 (by decide)⟩

/-- C7 counterexample: for the transcript `"aaaaa. bb"` with
`max_chunk_size = 5` the chunks are `["aaaaa.", "bb."]`, whose concatenation
`"aaaaa.bb."` is not the original text — chunking strips the chunks and
appends a period to the final sentence of each. -/
theorem chunk_concat_counterexample :
    (chunk_transcript "aaaaa. bb".data 5).flatten ≠ "aaaaa. bb".data := by
  decide

/-- C7 (amended): concatenating the chunk texts does not in general
reproduce the transcript character-for-character, but no sentence content is
lost or reordered: re-joining the `". "`-split sentences with `". "` is
exactly the transcript, a short text round-trips as the single chunk, and a
long text's chunks are precisely its sentence blocks in order, each rendered
as the block joined with `". "`, terminated by `". "`, and stripped. -/
theorem chunk_reconstruction (text : Str) (maxc : ℕ) :
    pyjoin sep2 (splitDotSp text) = text ∧
    (text.length ≤ maxc → (chunk_transcript text maxc).flatten = text) ∧
    (maxc < text.length →
      ∃ blocks : List (List Str),
        blocks.flatten = splitDotSp text ∧
        chunk_transcript text maxc = blocks.map (fun bl => pytrim (renderRaw bl))) := by
  refine ⟨pyjoin_splitDotSp text, ?_, ?_⟩
  · intro h
    simp [chunk_transcript, h]
  · intro h
    obtain ⟨blocks, _, hflat, heq⟩ := chunk_transcript_blocks text maxc h
    exact ⟨blocks, hflat, heq⟩

/-- Witness for `chunk_reconstruction` at `maxc = 5`, on the same two
inputs. -/
theorem chunk_reconstruction_witness :
    (chunk_transcript "ab".data 5).flatten = "ab".data ∧
    (∃ blocks : List (List Str),
        blocks.flatten = splitDotSp "aaaaa. bb".data ∧
        chunk_transcript "aaaaa. bb".data 5 =
          blocks.map (fun bl => pytrim (renderRaw bl))) :=
  ⟨(chunk_reconstruction "ab".data 5).2.1 (by decide),
   (chunk_reconstruction "aaaaa. bb".data 5).2.2 (by decide)⟩

/-- C4: the `transcript` field of the extraction result is always the
original input text, on both the single-chunk and the multi-chunk path,
whatever the LLM oracle returns. -/
theorem extract_metadata_transcript (llm : Str → MetadataSchema)
    (transcript : Str) :
    (extract_metadata llm transcript).transcript = transcript := by
  unfold extract_metadata extract_metadata_single_chunk
  by_cases h : 1 < (chunk_transcript transcript 100000).length <;> simp [h]

lemma dedupLoop_eq_firstOccur_filter :
    ∀ (l : List Str) (seen : List Str),
      dedupLoop seen l = firstOccur (l.filter (fun y => decide (pylower y ∉ seen))) := by
  intro l
  induction l with
  | nil => intro seen; simp [dedupLoop, firstOccur]
  | cons p rest ih =>
    intro seen
    by_cases hp : pylower p ∈ seen
    · have hdrop : (p :: rest).filter (fun y => decide (pylower y ∉ seen)) =
          rest.filter (fun y => decide (pylower y ∉ seen)) := by
        simp [List.filter_cons, hp]
      rw [hdrop]
      simp only [dedupLoop, if_pos hp]
      exact ih seen
    · have hkeep : (p :: rest).filter (fun y => decide (pylower y ∉ seen)) =
          p :: rest.filter (fun y => decide (pylower y ∉ seen)) := by
        simp [List.filter_cons, hp]
      rw [hkeep, firstOccur, List.filter_filter]
      simp only [dedupLoop, if_neg hp]
      congr 1
      rw [ih (pylower p :: seen)]
      congr 1
      apply List.filter_congr
      intro y _
      by_cases h1 : pylower y = pylower p <;> by_cases h2 : pylower y ∈ seen <;>
        simp [h1, h2]

lemma dedupLoop_nil_eq_firstOccur (l : List Str) :
    dedupLoop [] l = firstOccur l := by
  rw [dedupLoop_eq_firstOccur_filter l []]
  congr 1
  exact List.filter_eq_self.mpr (fun a _ => by simp)

lemma firstOccur_sublist : ∀ l : List Str, (firstOccur l).Sublist l := by
  intro l
  induction l using firstOccur.induct with
  | case1 => simp [firstOccur]
  | case2 x xs ih =>
    rw [firstOccur]
    exact (ih.trans (List.filter_sublist xs)).cons₂ x

lemma firstOccur_pairwise :
    ∀ l : List Str, (firstOccur l).Pairwise (fun a b => pylower a ≠ pylower b) := by
  intro l
  induction l using firstOccur.induct with
  | case1 => simp [firstOccur]
  | case2 x xs ih =>
    rw [firstOccur]
    refine List.Pairwise.cons ?_ ih
    intro b hb
    have hmem := (firstOccur_sublist _).mem hb
    have := List.of_mem_filter hmem
    simp only [decide_eq_true_eq] at this
    exact fun hxb => this (hxb ▸ rfl)

lemma firstOccur_complete :
    ∀ l : List Str, ∀ y ∈ l, pylower y ∈ (firstOccur l).map pylower := by
  intro l
  induction l using firstOccur.induct with
  | case1 => simp
  | case2 x xs ih =>
    intro y hy
    rcases List.mem_cons.mp hy with rfl | hy
    · simp [firstOccur]
    · by_cases h : pylower y = pylower x
      · simp [firstOccur, h]
      · have : y ∈ xs.filter (fun y => decide (pylower y ≠ pylower x)) :=
          List.mem_filter.mpr ⟨hy, by simpa using h⟩
        rw [firstOccur]
        simp only [List.map_cons, List.mem_cons]
        exact Or.inr (ih y this)

/-- C6: the merge of the per-chunk extraction results concatenates the chunk
summaries in order separated by a blank line; the merged key points are the
first-occurrence case-insensitive dedup of the concatenated chunk key points
(an order-preserving, casing-preserving sublist, pairwise distinct under
lower-casing, covering every input point), capped at 12 entries — the list
`extract_metadata` stores; and the merged topics are the same dedup of the
concatenated topics, uncapped. -/
theorem merge_spec (css : List ChunkSummary) :
    merged_summary_of css = pyjoin "\n\n".data (css.map (·.summary)) ∧
    merged_key_points_of css = firstOccur (css.map (·.key_points)).flatten ∧
    (merged_key_points_of css).Sublist (css.map (·.key_points)).flatten ∧
    (merged_key_points_of css).Pairwise (fun a b => pylower a ≠ pylower b) ∧
    (∀ y ∈ (css.map (·.key_points)).flatten,
      pylower y ∈ (merged_key_points_of css).map pylower) ∧
    ((merged_key_points_of css).take 12).length ≤ 12 ∧
    merged_topics_of css = firstOccur (css.map (·.topics)).flatten ∧
    (merged_topics_of css).Sublist (css.map (·.topics)).flatten ∧
    (merged_topics_of css).Pairwise (fun a b => pylower a ≠ pylower b) ∧
    (∀ y ∈ (css.map (·.topics)).flatten,
      pylower y ∈ (merged_topics_of css).map pylower) := by
  have hkp := dedupLoop_nil_eq_firstOccur (css.map (·.key_points)).flatten
  have htp := dedupLoop_nil_eq_firstOccur (css.map (·.topics)).flatten
  refine ⟨rfl, hkp, ?_, ?_, ?_, ?_, htp, ?_, ?_, ?_⟩
  · rw [merged_key_points_of, hkp]; exact firstOccur_sublist _
  · rw [merged_key_points_of, hkp]; exact firstOccur_pairwise _
  · rw [merged_key_points_of, hkp]; exact firstOccur_complete _
  · exact le_trans (List.length_take_le 12 _) le_rfl
  · rw [merged_topics_of, htp]; exact firstOccur_sublist _
  · rw [merged_topics_of, htp]; exact firstOccur_pairwise _
  · rw [merged_topics_of, htp]; exact firstOccur_complete _

lemma copyLoop_skip (attempt : ℕ → Option PyErr) (d : ℚ) :
    ∀ (k : ℕ) (fuel : ℕ) (i : ℕ) (last : Option PyErr), k ≤ fuel →
    (∀ j, j < k → ∃ e, attempt (i + j) = some e ∧ is_windows_lock_error e = true) →
    ∃ last2 : Option PyErr,
      copyLoop attempt d fuel i last =
        ((List.range' i k).map (sleepFor d) ++ (copyLoop attempt d (fuel - k) (i + k) last2).1,
         (copyLoop attempt d (fuel - k) (i + k) last2).2) ∧
      (k = 0 → last2 = last) ∧
      (0 < k → some last2 = (attempt (i + k - 1)).map some) := by
  intro k
  induction k with
  | zero =>
    intro fuel i last _ _
    exact ⟨last, by simp [List.range'], fun _ => rfl, by omega⟩
  | succ k ih =>
    intro fuel i last hk hlock
    obtain ⟨e, he, hlocke⟩ := by simpa using hlock 0 (Nat.succ_pos k)
    obtain ⟨fuel', rfl⟩ : ∃ f, fuel = f + 1 := ⟨fuel - 1, by omega⟩
    have hshift : ∀ j, j < k →
        ∃ e2, attempt (i + 1 + j) = some e2 ∧ is_windows_lock_error e2 = true := by
      intro j hj
      have := hlock (j + 1) (by omega)
      simpa [Nat.add_comm, Nat.add_assoc, Nat.add_left_comm] using this
    obtain ⟨last2, heq, h0, hpos⟩ := ih fuel' (i + 1) (some e) (by omega) hshift
    refine ⟨last2, ?_, by omega, ?_⟩
    · simp only [copyLoop, he, hlocke, if_true]
      rw [heq]
      have hra : List.range' i (k + 1) = i :: List.range' (i + 1) k := by
        simp [List.range'_succ]
      have hfe : fuel' + 1 - (k + 1) = fuel' - k := by omega
      have hie : i + 1 + k = i + (k + 1) := by omega
      rw [hra, hfe] at *
      simp only [List.map_cons, List.cons_append]
      rw [hie] at heq ⊢
    · intro _
      rcases Nat.eq_zero_or_pos k with rfl | hkpos
      · have : last2 = some e := h0 rfl
        simp [this, Nat.add_sub_cancel, he]
      · have := hpos hkpos
        have hidx : i + 1 + k - 1 = i + (k + 1) - 1 := by omega
        rw [hidx] at this
        exact this

/-- C2: `copy_with_retries` retries exactly the errors identified as lock
conditions: when every attempt before index `k` raised a lock-class error,
(a) if all `attempts` iterations raise lock-class errors, the call sleeps
`base_delay * 2^i + (1/50) * i` before each next attempt (one sleep per
iteration, in order) and ends exhausted, the terminal failure wrapping the
last observed cause; (b) a non-lock error at attempt `k` propagates
immediately, with exactly the `k` earlier sleeps and no further attempts;
(c) a success at attempt `k` returns immediately with the `k` earlier
sleeps. -/
theorem copy_retry_spec (attempt : ℕ → Option PyErr) (attempts : ℕ) (d : ℚ) :
    ((∀ j, j < attempts → ∃ e, attempt j = some e ∧ is_windows_lock_error e = true) →
      ∃ last, copy_with_retries attempt attempts d =
        ((List.range attempts).map (sleepFor d), CopyOutcome.exhausted last) ∧
        (0 < attempts → some last = (attempt (attempts - 1)).map some)) ∧
    (∀ k e, k < attempts →
      (∀ j, j < k → ∃ e2, attempt j = some e2 ∧ is_windows_lock_error e2 = true) →
      attempt k = some e → is_windows_lock_error e = false →
      copy_with_retries attempt attempts d =
        ((List.range k).map (sleepFor d), CopyOutcome.failed e)) ∧
    (∀ k, k < attempts →
      (∀ j, j < k → ∃ e2, attempt j = some e2 ∧ is_windows_lock_error e2 = true) →
      attempt k = none →
      copy_with_retries attempt attempts d =
        ((List.range k).map (sleepFor d), CopyOutcome.success)) := by
  refine ⟨?_, ?_, ?_⟩
  · intro hall
    obtain ⟨last2, heq, h0, hpos⟩ :=
      copyLoop_skip attempt d attempts attempts 0 none le_rfl
        (by intro j hj; simpa using hall j hj)
    refine ⟨last2, ?_, ?_⟩
    · rw [copy_with_retries, heq]
      simp [copyLoop, List.range_eq_range']
    · intro h
      have := hpos h
      simpa using this
  · intro k e hk hlock he hnl
    obtain ⟨last2, heq, _, _⟩ :=
      copyLoop_skip attempt d k attempts 0 none (by omega)
        (by intro j hj; simpa using hlock j hj)
    rw [copy_with_retries, heq]
    obtain ⟨m, hm⟩ : ∃ m, attempts - k = m + 1 := ⟨attempts - k - 1, by omega⟩
    rw [hm]
    simp only [copyLoop, Nat.zero_add, he, hnl, if_false]
    simp [List.range_eq_range']
  · intro k hk hlock he
    obtain ⟨last2, heq, _, _⟩ :=
      copyLoop_skip attempt d k attempts 0 none (by omega)
        (by intro j hj; simpa using hlock j hj)
    rw [copy_with_retries, heq]
    obtain ⟨m, hm⟩ : ∃ m, attempts - k = m + 1 := ⟨attempts - k - 1, by omega⟩
    rw [hm]
    simp only [copyLoop, Nat.zero_add, he]
    simp [List.range_eq_range']

/-- Witness for `copy_retry_spec`: all-lock errors for 2 attempts exhaust
with both sleeps; an immediate non-lock `PermissionError` fails with no
sleeps; three lock errors then success returns after three sleeps. -/
theorem copy_retry_spec_witness :
    (∃ last, copy_with_retries (fun _ => some (PyErr.permissionError (some 32))) 2 (3/20) =
        ([sleepFor (3/20) 0, sleepFor (3/20) 1], CopyOutcome.exhausted last) ∧
        (0 < 2 →
          some last = (some (PyErr.permissionError (some 32)) : Option PyErr).map some)) ∧
    copy_with_retries (fun _ => some (PyErr.permissionError none)) 8 (3/20) =
      ([], CopyOutcome.failed (PyErr.permissionError none)) ∧
    copy_with_retries (fun i => if i < 3 then some (PyErr.osError (some 5)) else none) 8 (3/20) =
      ([sleepFor (3/20) 0, sleepFor (3/20) 1, sleepFor (3/20) 2], CopyOutcome.success) := by
  refine ⟨?_, ?_, ?_⟩
  · obtain ⟨last, h1, h2⟩ :=
      (copy_retry_spec (fun _ => some (PyErr.permissionError (some 32))) 2 (3/20)).1
        (by intro j hj; exact ⟨_, rfl, by decide⟩)
    exact ⟨last, by simpa using h1, by simpa using h2⟩
  · have h := (copy_retry_spec (fun _ => some (PyErr.permissionError none)) 8 (3/20)).2.1
      0 (PyErr.permissionError none) (by omega)
      (by intro j hj; exact absurd hj (by omega)) rfl (by decide)
    simpa using h
  · have h := (copy_retry_spec (fun i => if i < 3 then some (PyErr.osError (some 5)) else none)
      8 (3/20)).2.2 3 (by omega)
      (by intro j hj; exact ⟨PyErr.osError (some 5), by simp [hj], by decide⟩)
      (by norm_num)
    simpa [List.range_succ] using h

lemma tmpPath_ne (p : Str) : tmpPath p ≠ p := by
  intro h
  have := congrArg List.length h
  simp [tmpPath] at this

/-- C1: if `atomic_write_text` fails at any point before the rename
(`os.replace`) step, then (a) the target path is left exactly as it was —
absent if it was absent, holding its full prior content otherwise, never
partial; (b) the original failure propagates to the caller; and (c) the
temporary file is deleted whenever the best-effort unlink does not itself
fail (a failing unlink is swallowed, leaving (a) and (b) intact).
`hfresh` records that the uuid-suffixed temporary name is fresh. -/
theorem atomic_write_fail_spec (fs : FS) (path content : Str) (f : WriteFail)
    (hfresh : fs (tmpPath path) = none)
    (hpoint : f.point ≠ FailPoint.replaceStep) :
    (atomic_write_text fs path content (some f)).1 path = fs path ∧
    (atomic_write_text fs path content (some f)).2 = .error f.err ∧
    (f.unlinkFails = false →
      (atomic_write_text fs path content (some f)).1 (tmpPath path) = none) := by
  obtain ⟨point, err, partialContent, unlinkFails⟩ := f
  have hne : ¬ path = tmpPath path := fun h => tmpPath_ne path h.symm
  cases point with
  | mkdirStep =>
    exact ⟨rfl, rfl, fun _ => hfresh⟩
  | openStep =>
    refine ⟨?_, rfl, fun _ => ?_⟩ <;>
      simp [atomic_write_text, cleanupTmp, hfresh]
  | writeStep =>
    refine ⟨?_, rfl, fun hu => ?_⟩ <;>
      cases unlinkFails <;>
        simp_all [atomic_write_text, cleanupTmp, fsWrite, fsRemove, hne]
  | flushStep =>
    refine ⟨?_, rfl, fun hu => ?_⟩ <;>
      cases unlinkFails <;>
        simp_all [atomic_write_text, cleanupTmp, fsWrite, fsRemove, hne]
  | fsyncStep =>
    refine ⟨?_, rfl, fun hu => ?_⟩ <;>
      cases unlinkFails <;>
        simp_all [atomic_write_text, cleanupTmp, fsWrite, fsRemove, hne]
  | replaceStep => exact absurd rfl hpoint

/-- Witness for `atomic_write_fail_spec`: a failure injected during the
write, on an empty file system, leaves the target absent, propagates the
error, and removes the temporary file. -/
theorem atomic_write_fail_witness :
    (atomic_write_text (fun _ => none) "a.md".data "x".data
        (some ⟨FailPoint.writeStep, PyErr.osError none, "pa".data, false⟩)).1
        "a.md".data = none ∧
    (atomic_write_text (fun _ => none) "a.md".data "x".data
        (some ⟨FailPoint.writeStep, PyErr.osError none, "pa".data, false⟩)).2 =
      .error (PyErr.osError none) ∧
    (atomic_write_text (fun _ => none) "a.md".data "x".data
        (some ⟨FailPoint.writeStep, PyErr.osError none, "pa".data, false⟩)).1
        (tmpPath "a.md".data) = none := by
  have h := atomic_write_fail_spec (fun _ => none) "a.md".data "x".data
    ⟨FailPoint.writeStep, PyErr.osError none, "pa".data, false⟩ rfl (by decide)
  exact ⟨h.1, h.2.1, h.2.2 rfl⟩

lemma save_video_id_ok (extractor : Str → Except PyErr Str) (url : Str)
    (h0 : ∀ e, extractor url = .error e → e = PyErr.valueError) :
    ∃ v, save_video_id extractor url = .ok v := by
  cases hx : extractor url with
  | ok v => exact ⟨v, by simp [save_video_id, hx]⟩
  | error e =>
    have he := h0 e hx
    subst he
    exact ⟨extract_video_id_fallback url, by simp [save_video_id, hx]⟩

/-- C3 (amended): when the video-id stage completes (the extractor raises at
most the caught `ValueError` — the claim's precondition of reaching the
staging write), the staging write succeeds and the vault copy fails,
`save_metadata` returns normally (it does not raise) with `saved = false`,
`path = null`, `skipped = false` and `staged_path` populated; the error code
is `"FILE_LOCKED"` exactly when the copy failure raised a `PermissionError`
— which covers both exhaustion of retries on lock conditions and a non-lock
`PermissionError` propagated on a single attempt — and `"COPY_ERROR"` for
any other copy failure.  In particular exhaustion always yields
`"FILE_LOCKED"`. -/
theorem save_copy_failure_spec (env : SaveEnv) (extractor : Str → Except PyErr Str)
    (m : MetadataSchema) (overwrite : Bool) (e : PyErr)
    (h0 : ∀ e2, extractor m.source_url = .error e2 → e2 = PyErr.valueError)
    (h1 : (env.vault_exists_pre && !overwrite) = false)
    (h2 : env.staging_write_err = none)
    (h3 : (env.vault_exists_at_copy && !overwrite) = false)
    (h4 : copyRaisedErr env.copy_outcome = some e) :
    ∃ info, save_metadata env extractor m overwrite = .ok info ∧
      info.saved = false ∧ info.path = none ∧ info.skipped = false ∧
      info.staged_path = some (env.staging_dir ++ "/".data ++ info.filename) ∧
      info.error_code =
        some (if isPermErr e then "FILE_LOCKED".data else "COPY_ERROR".data) ∧
      (∀ l, env.copy_outcome = CopyOutcome.exhausted l →
        info.error_code = some "FILE_LOCKED".data) := by
  obtain ⟨vid, hvid⟩ := save_video_id_ok extractor m.source_url h0
  refine ⟨⟨none,
    create_windows_safe_filename env.today m.title vid 200, false,
    some (env.staging_dir ++ "/".data ++
      create_windows_safe_filename env.today m.title vid 200), false,
    some (if isPermErr e then "FILE_LOCKED".data else "COPY_ERROR".data)⟩,
    ?_, rfl, rfl, rfl, rfl, rfl, ?_⟩
  · simp only [save_metadata, hvid, h1, h2, h3, h4, Bool.false_eq_true, if_false]
  · intro l hl
    rw [hl] at h4
    simp only [copyRaisedErr, Option.some.injEq] at h4
    subst h4
    simp [isPermErr]

/-- Witness for `save_copy_failure_spec`: a copy that exhausts its retries
on lock conditions yields `saved = false`, a null vault path, a populated
staged path, and the `"FILE_LOCKED"` code. -/
theorem save_copy_failure_spec_witness :
    ∃ info, save_metadata
        ⟨"2025-01-05".data, "staging".data, "vault".data, false, false, none, false,
         CopyOutcome.exhausted (some (PyErr.permissionError (some 32)))⟩
        (fun _ => Except.ok "dQw4w9WgXcQ".data) metaC false = .ok info ∧
      info.saved = false ∧ info.path = none ∧ info.skipped = false ∧
      info.staged_path = some ("staging".data ++ "/".data ++ info.filename) ∧
      info.error_code =
        some (if isPermErr (PyErr.permissionError none) then "FILE_LOCKED".data
              else "COPY_ERROR".data) ∧
      (∀ l, CopyOutcome.exhausted (some (PyErr.permissionError (some 32))) =
          CopyOutcome.exhausted l →
        info.error_code = some "FILE_LOCKED".data) :=
  save_copy_failure_spec
    ⟨"2025-01-05".data, "staging".data, "vault".data, false, false, none, false,
     CopyOutcome.exhausted (some (PyErr.permissionError (some 32)))⟩
    (fun _ => Except.ok "dQw4w9WgXcQ".data) metaC false
    (PyErr.permissionError none)
    (fun _ he => Except.noConfusion he) rfl rfl rfl rfl

/-- C3 counterexample: a non-lock `PermissionError` (no `winerror`, e.g. a
POSIX `EACCES`) makes `copy_with_retries` give up on the very first attempt
— no retries were exhausted on lock conditions — yet `save_metadata`
classifies it `"FILE_LOCKED"`, not the generic `"COPY_ERROR"` the claim
requires for such a failure. -/
theorem save_copy_failure_counterexample :
    copy_with_retries (fun _ => some (PyErr.permissionError none)) 8 (3 / 20) =
      ([], CopyOutcome.failed (PyErr.permissionError none)) ∧
    save_metadata
        ⟨"2025-01-05".data, "staging".data, "vault".data, false, false, none, false,
         CopyOutcome.failed (PyErr.permissionError none)⟩
        (fun _ => Except.ok "dQw4w9WgXcQ".data) metaC false =
      Except.ok ⟨none, "2025-01-05__t__dQw4w9WgXcQ.md".data, false,
                 some "staging/2025-01-05__t__dQw4w9WgXcQ.md".data, false,
                 some "FILE_LOCKED".data⟩ ∧
    ("FILE_LOCKED".data : Str) ≠ "COPY_ERROR".data := by
  refine ⟨rfl, rfl, by decide⟩

/-- C9 counterexample: for the URL
`https://example.com/watch_page_number_one` (where extraction fails with the
`ValueError` the fallback catches) the fallback identifier is
`"watch_page_"` — the FIRST 11 characters of the last `/`-separated segment
of the URL — whereas the last 11 characters of the URL path
`"/watch_page_number_one"` are `"_number_one"`; the two differ. -/
theorem video_id_fallback_counterexample :
    save_video_id (fun _ => Except.error PyErr.valueError)
        "https://example.com/watch_page_number_one".data =
      Except.ok "watch_page_".data ∧
    pyLastSlice 11 "/watch_page_number_one".data = "_number_one".data ∧
    ("watch_page_".data : Str) ≠ "_number_one".data := by
  refine ⟨rfl, rfl, by decide⟩

/-- C9 (amended): a source_url that defeats video-id extraction with the
`ValueError` raised for unrecognized URLs does not make save fail at that
stage: the fallback identifier is the first 11 characters of the last
`/`-separated segment of the URL string, the only error the call can then
produce is the staging-write `IOError`, and any returned `FileSaveInfo`
carries a filename built from that fallback.  But an extraction failure by
any other exception propagates out of `save_metadata` uncaught — in
particular, a source_url whose parse has no hostname (and which the watch
regex does not match) makes `extract_video_id` raise `TypeError` at its
hostname gate, and save does fail at that stage with that `TypeError`. -/
theorem save_video_id_fallback_spec (env : SaveEnv)
    (extractor : Str → Except PyErr Str) (m : MetadataSchema) (overwrite : Bool) :
    (extractor m.source_url = .error PyErr.valueError →
      save_video_id extractor m.source_url =
        .ok (((splitSlash m.source_url).getLastD []).take 11) ∧
      (∀ e, save_metadata env extractor m overwrite = .error e → e = PyErr.ioError) ∧
      (∀ info, save_metadata env extractor m overwrite = .ok info →
        info.filename = create_windows_safe_filename env.today m.title
          (((splitSlash m.source_url).getLastD []).take 11) 200)) ∧
    (∀ e, extractor m.source_url = .error e → e ≠ PyErr.valueError →
      save_metadata env extractor m overwrite = .error e) ∧
    (∀ (search : Str → Option Str) (parse : Str → ParsedUrl)
        (normalize : Str → Str) (pathBranches queryBranch : ParsedUrl → Option Str),
      search (normalize m.source_url) = none →
      (parse (normalize m.source_url)).hostname = none →
      extract_video_id search parse normalize pathBranches queryBranch
          m.source_url = .error PyErr.typeError ∧
      save_metadata env
          (extract_video_id search parse normalize pathBranches queryBranch)
          m overwrite = .error PyErr.typeError) := by
  refine ⟨?_, ?_, ?_⟩
  · intro hfail
    have hv : save_video_id extractor m.source_url =
        .ok (((splitSlash m.source_url).getLastD []).take 11) := by
      simp [save_video_id, hfail, extract_video_id_fallback]
    refine ⟨hv, ?_, ?_⟩
    · intro e he
      simp only [save_metadata, hv] at he
      split at he
      · exact absurd he (by simp)
      · split at he
        · exact (Except.error.inj he).symm
        · exact absurd he (by simp)
    · intro info hinfo
      simp only [save_metadata, hv] at hinfo
      split at hinfo
      · obtain rfl := Except.ok.inj hinfo
        rfl
      · split at hinfo
        · exact absurd hinfo (by simp)
        · obtain rfl := Except.ok.inj hinfo
          rfl
  · intro e he hne
    have hv2 : save_video_id extractor m.source_url = .error e := by
      cases e <;> simp_all [save_video_id]
    simp [save_metadata, hv2]
  · intro search parse normalize pathBranches queryBranch hsearch hhost
    have hx : extract_video_id search parse normalize pathBranches queryBranch
        m.source_url = .error PyErr.typeError := by
      simp [extract_video_id, hsearch, hhost]
    have hsv : save_video_id
        (extract_video_id search parse normalize pathBranches queryBranch)
        m.source_url = .error PyErr.typeError := by
      simp [save_video_id, hx]
    exact ⟨hx, by simp [save_metadata, hsv]⟩

/-- Witness for `save_video_id_fallback_spec`: on the URL of `metaC`, an
extractor raising `ValueError` yields the fallback id, an extractor raising
`TypeError` makes the save fail with that error, and the modelled
`extract_video_id` with a hostname-less parse raises `TypeError` which the
save propagates. -/
theorem save_video_id_fallback_witness :
    (save_video_id (fun _ => Except.error PyErr.valueError) metaC.source_url =
      .ok (((splitSlash metaC.source_url).getLastD []).take 11) ∧
     (∀ e, save_metadata
        ⟨"2025-01-05".data, "staging".data, "vault".data, false, false, none, false,
         CopyOutcome.success⟩
        (fun _ => Except.error PyErr.valueError) metaC false = .error e →
       e = PyErr.ioError) ∧
     (∀ info, save_metadata
        ⟨"2025-01-05".data, "staging".data, "vault".data, false, false, none, false,
         CopyOutcome.success⟩
        (fun _ => Except.error PyErr.valueError) metaC false = .ok info →
       info.filename = create_windows_safe_filename "2025-01-05".data metaC.title
         (((splitSlash metaC.source_url).getLastD []).take 11) 200)) ∧
    save_metadata
        ⟨"2025-01-05".data, "staging".data, "vault".data, false, false, none, false,
         CopyOutcome.success⟩
        (fun _ => Except.error PyErr.typeError) metaC false =
      .error PyErr.typeError ∧
    (extract_video_id (fun _ => none) (fun _ => ⟨none, [], []⟩) (fun u => u)
        (fun _ => none) (fun _ => none) metaC.source_url =
      .error PyErr.typeError ∧
     save_metadata
        ⟨"2025-01-05".data, "staging".data, "vault".data, false, false, none, false,
         CopyOutcome.success⟩
        (extract_video_id (fun _ => none) (fun _ => ⟨none, [], []⟩) (fun u => u)
          (fun _ => none) (fun _ => none))
        metaC false = .error PyErr.typeError) := by
  refine ⟨?_, ?_, ?_⟩
  · exact (save_video_id_fallback_spec
      ⟨"2025-01-05".data, "staging".data, "vault".data, false, false, none, false,
       CopyOutcome.success⟩
      (fun _ => Except.error PyErr.valueError) metaC false).1 rfl
  · exact (save_video_id_fallback_spec
      ⟨"2025-01-05".data, "staging".data, "vault".data, false, false, none, false,
       CopyOutcome.success⟩
      (fun _ => Except.error PyErr.typeError) metaC false).2.1
      PyErr.typeError rfl (by decide)
  · exact (save_video_id_fallback_spec
      ⟨"2025-01-05".data, "staging".data, "vault".data, false, false, none, false,
       CopyOutcome.success⟩
      (extract_video_id (fun _ => none) (fun _ => ⟨none, [], []⟩) (fun u => u)
        (fun _ => none) (fun _ => none)) metaC false).2.2
      (fun _ => none) (fun _ => ⟨none, [], []⟩) (fun u => u)
      (fun _ => none) (fun _ => none) rfl rfl

/-- C8: the slug budget computed by `create_windows_safe_filename` is
`max_length - 11 - (len(video_id) + 4)` although the lengths of the fixed
parts it accounts for (`"YYYY-MM-DD__"` and `"__" + video_id + ".md"`, as
its own comments state) are 12 and `len(video_id) + 5`: with a 200-character
title, an 11-character video id and `max_length = 200` the produced filename
has 202 characters, exceeding `max_length`. -/
theorem filename_budget_overflow :
    (create_windows_safe_filename "2025-01-05".data (List.replicate 200 'a')
        "dQw4w9WgXcQ".data 200).length = 202 ∧
    200 < (create_windows_safe_filename "2025-01-05".data (List.replicate 200 'a')
        "dQw4w9WgXcQ".data 200).length := by
  refine ⟨by decide, by decide⟩

lemma beforeLastDot_append_md (x : Str) :
    beforeLastDot (x ++ ".md".data) = x := by
  have hmem : '.' ∈ x ++ ".md".data := by simp
  rw [beforeLastDot, if_pos hmem, List.reverse_append]
  show ((((('d' :: 'm' :: '.' :: []) ++ x.reverse).dropWhile (fun c => c ≠ '.')).drop 1).reverse) = x
  rw [List.cons_append, List.cons_append, List.cons_append]
  rw [List.dropWhile_cons, List.dropWhile_cons, List.dropWhile_cons]
  norm_num
  rw [if_neg (by decide : ¬ ('d' = '.')), if_neg (by decide : ¬ ('m' = '.'))]
  simp

lemma reserved_short : ∀ r ∈ windowsReservedNames, r.length ≤ 4 := by decide

/-- C10: with a ten-character date, the filename built by
`create_windows_safe_filename` always takes the normal path: it is exactly
`today ++ "__" ++ slug ++ "__" ++ video_id ++ ".md"`, begins with the date
prefix and two underscores, and its name without extension (at least 14
characters long) can never case-insensitively equal a reserved device name
(all of length at most 4), so the `"video__..."` substitution branch is
unreachable. -/
theorem reserved_branch_unreachable (today title video_id : Str)
    (max_length : ℕ) (htoday : today.length = 10) :
    create_windows_safe_filename today title video_id max_length =
      today ++ "__".data ++ makeSlug title video_id max_length ++ "__".data ++
        video_id ++ ".md".data ∧
    List.IsPrefix (today ++ "__".data)
      (create_windows_safe_filename today title video_id max_length) ∧
    (beforeLastDot (today ++ "__".data ++ makeSlug title video_id max_length ++
        "__".data ++ video_id ++ ".md".data)).map Char.toUpper ∉
      windowsReservedNames := by
  have hbld : beforeLastDot (today ++ "__".data ++ makeSlug title video_id max_length ++
      "__".data ++ video_id ++ ".md".data) =
      today ++ "__".data ++ makeSlug title video_id max_length ++ "__".data ++ video_id :=
    beforeLastDot_append_md _
  have hnotmem : (today ++ "__".data ++ makeSlug title video_id max_length ++
      "__".data ++ video_id).map Char.toUpper ∉ windowsReservedNames := by
    intro hmem
    have hlen := reserved_short _ hmem
    simp only [List.length_map, List.length_append, htoday] at hlen
    simp at hlen
    omega
  have heq : create_windows_safe_filename today title video_id max_length =
      today ++ "__".data ++ makeSlug title video_id max_length ++ "__".data ++
        video_id ++ ".md".data := by
    simp only [create_windows_safe_filename]
    rw [hbld, if_neg hnotmem]
  refine ⟨heq, ?_, by rw [hbld]; exact hnotmem⟩
  rw [heq]
  exact ⟨makeSlug title video_id max_length ++ "__".data ++ video_id ++ ".md".data,
    by simp [List.append_assoc]⟩

/-- Witness for `reserved_branch_unreachable` on the specification's own
example inputs. -/
theorem reserved_branch_unreachable_witness :
    create_windows_safe_filename "2025-01-05".data "My: Talk?".data
        "abc12345678".data 200 =
      "2025-01-05".data ++ "__".data ++
        makeSlug "My: Talk?".data "abc12345678".data 200 ++ "__".data ++
        "abc12345678".data ++ ".md".data ∧
    List.IsPrefix ("2025-01-05".data ++ "__".data)
      (create_windows_safe_filename "2025-01-05".data "My: Talk?".data
        "abc12345678".data 200) ∧
    (beforeLastDot ("2025-01-05".data ++ "__".data ++
        makeSlug "My: Talk?".data "abc12345678".data 200 ++ "__".data ++
        "abc12345678".data ++ ".md".data)).map Char.toUpper ∉
      windowsReservedNames :=
  reserved_branch_unreachable "2025-01-05".data "My: Talk?".data
    "abc12345678".data 200 (by decide)

/-- C5 counterexample: at `max_chunk_size = 5` the text `"aaaaa. bbbbb"`
has no sentence longer than 5, yet the first chunk `"aaaaa."` (the sentence
with its re-appended period) has length 6 — a chunk exceeds the bound
although no single sentence alone exceeds `max_chunk_size`. -/
theorem chunking_oversize_counterexample :
    chunk_transcript "aaaaa. bbbbb".data 5 = ["aaaaa.".data, "bbbbb.".data] ∧
    (∀ s ∈ splitDotSp "aaaaa. bbbbb".data, s.length ≤ 5) ∧
    ¬ (∀ c ∈ chunk_transcript "aaaaa. bbbbb".data 5, c.length ≤ 5) := by
  refine ⟨by decide, by decide, by decide⟩
